import Mathlib

/-!
# Verification of the halo-tool resilience and state core

A shallow embedding, in Lean 4, of the resilience layer (circuit breaker,
retry manager, rate limiter, request deduplicator, cache manager), the
state store and the tool orchestrator of the halo-tool repository.  Each
definition is translated from the corresponding TypeScript source file;
timestamps (`Date.now()`) are threaded explicitly as `Nat` arguments, maps
are association lists or total functions, and fallible operations return
`Option` or `Except`.
-/

namespace HaloTool

/-! ## JSON-like values

A model of the JSON-serializable values that flow through the state store
and caches.  Only string-keyed objects are modelled (the state documents,
cache payloads and result data exercised by the verified properties are
string-keyed objects or scalars; JS arrays-as-objects property assignment
is outside their scope). -/

inductive JVal where
  | null : JVal
  | bool (b : Bool) : JVal
  | num (n : Int) : JVal
  | str (s : String) : JVal
  | obj (fields : List (String × JVal)) : JVal

/-- JS truthiness of a `JVal` (`null`, `false`, `0` and `""` are falsy;
objects are always truthy). -/
def jsTruthy : JVal → Bool
  | .null => false
  | .bool b => b
  | .num n => n != 0
  | .str s => s != ""
  | .obj _ => true

/-- Look up a key in an object's field list (first binding wins, as for a
JS object, whose keys are unique). -/
def lookupField : List (String × JVal) → String → Option JVal
  | [], _ => none
  | (k', v) :: rest, k => if k' = k then some v else lookupField rest k

/-- Assign a key in an object's field list: an existing key keeps its
position and gets the new value, a new key is appended (JS object
assignment order). -/
def setField : List (String × JVal) → String → JVal → List (String × JVal)
  | [], k, v => [(k, v)]
  | (k', v') :: rest, k, v =>
      if k' = k then (k, v) :: rest else (k', v') :: setField rest k v

/-- Remove a key from an object's field list (JS `delete`). -/
def removeField : List (String × JVal) → String → List (String × JVal)
  | [], _ => []
  | (k', v') :: rest, k =>
      if k' = k then rest else (k', v') :: removeField rest k

/-- The child object to descend into while setting a path, following
lodash `_.set`: an existing object child is kept, anything else is
replaced by a fresh empty object (the path keys here are non-numeric, so
lodash creates objects, not arrays). -/
def childObj (fields : List (String × JVal)) (k : String) : JVal :=
  match lookupField fields k with
  | some (.obj cf) => .obj cf
  | _ => .obj []

/-- lodash `_.set` restricted to dot-paths over string-keyed objects: the
value is written at the end of the key path, missing or non-object
intermediate values are replaced by fresh objects, and a non-object root
is returned unchanged (lodash `baseSet` does nothing on a non-object). -/
def setPath : JVal → List String → JVal → JVal
  | x, [], _ => x
  | .obj fields, [k], v => .obj (setField fields k v)
  | .obj fields, k :: k' :: rest, v =>
      .obj (setField fields k (setPath (childObj fields k) (k' :: rest) v))
  | x, _ :: _, _ => x

/-- Read the value at a dot-path (the dual of `setPath`; `none` when a
segment is missing or the value there is not an object). -/
def getPath : JVal → List String → Option JVal
  | x, [] => some x
  | .obj fields, k :: rest =>
      match lookupField fields k with
      | some c => getPath c rest
      | none => none
  | _, _ :: _ => none

/-- lodash `_.unset` restricted to dot-paths: removes the final key if the
whole path down to it exists; never creates intermediate objects. -/
def deletePath : JVal → List String → JVal
  | x, [] => x
  | .obj fields, [k] => .obj (removeField fields k)
  | .obj fields, k :: k' :: rest =>
      match lookupField fields k with
      | some (.obj cf) =>
          .obj (setField fields k (deletePath (.obj cf) (k' :: rest)))
      | _ => .obj fields
  | x, _ :: _ => x

/-! ## Circuit breaker (`src/resilience/CircuitBreaker.ts`)

The per-key map `circuits` is modelled as a total function from keys to
stats: `getStats` creates a default record on first use, so a missing
entry and the default record are indistinguishable to `isOpen`,
`recordSuccess` and `recordFailure`. -/

inductive CBState where
  | closed : CBState
  | opened : CBState
  | halfOpen : CBState
deriving DecidableEq, Repr

structure CircuitBreakerConfig where
  failureThreshold : Nat
  resetTimeoutMs : Nat
deriving DecidableEq, Repr

structure CircuitBreakerStats where
  failures : Nat
  successes : Nat
  lastFailureTime : Nat
  lastSuccessTime : Nat
  state : CBState
deriving DecidableEq, Repr

/-- The default stats record installed by `getStats` on first use. -/
def freshStats : CircuitBreakerStats :=
  { failures := 0, successes := 0, lastFailureTime := 0,
    lastSuccessTime := 0, state := .closed }

/-- The circuits map, one independent record per key. -/
def CircuitBreaker : Type := String → CircuitBreakerStats

/-- A breaker with no recorded activity. -/
def freshBreaker : CircuitBreaker := fun _ => freshStats

/-- Update the stats record of one key. -/
def cbUpdate (b : CircuitBreaker) (key : String)
    (st : CircuitBreakerStats) : CircuitBreaker :=
  fun k => if k = key then st else b k

/-- `transitionToOpen`: set the phase to open. -/
def transitionToOpen (st : CircuitBreakerStats) : CircuitBreakerStats :=
  { st with state := .opened }

/-- `transitionToClosed`: set the phase to closed and reset the failure
counter to 0. -/
def transitionToClosed (st : CircuitBreakerStats) : CircuitBreakerStats :=
  { st with state := .closed, failures := 0 }

/-- `transitionToHalfOpen`: set the phase to half-open. -/
def transitionToHalfOpen (st : CircuitBreakerStats) : CircuitBreakerStats :=
  { st with state := .halfOpen }

/-- `isOpen(circuitId)`: in the open phase, once `resetTimeoutMs` has
elapsed since the last failure the circuit moves to half-open and the
check returns `false`; otherwise it returns `true`.  Any other phase
returns `false`.  The JS subtraction `Date.now() - lastFailureTime` is
modelled on `Int`. -/
def isOpen (b : CircuitBreaker) (key : String)
    (cfg : CircuitBreakerConfig) (now : Nat) : Bool × CircuitBreaker :=
  let st := b key
  match st.state with
  | .opened =>
      if (cfg.resetTimeoutMs : Int) ≤ (now : Int) - (st.lastFailureTime : Int) then
        (false, cbUpdate b key (transitionToHalfOpen st))
      else
        (true, b)
  | _ => (false, b)

/-- `recordSuccess(circuitId)`: bump the success counter and timestamp;
in half-open (or, defensively, open) the circuit transitions to closed.
A success in the closed phase leaves the failure counter untouched. -/
def recordSuccess (b : CircuitBreaker) (key : String) (now : Nat) :
    CircuitBreaker :=
  let st := b key
  let st := { st with successes := st.successes + 1, lastSuccessTime := now }
  match st.state with
  | .halfOpen => cbUpdate b key (transitionToClosed st)
  | .opened => cbUpdate b key (transitionToClosed st)
  | .closed => cbUpdate b key st

/-- `recordFailure(circuitId)`: bump the failure counter and timestamp;
a closed circuit whose counter reaches `failureThreshold` opens, and a
half-open circuit goes straight back to open. -/
def recordFailure (b : CircuitBreaker) (key : String)
    (cfg : CircuitBreakerConfig) (now : Nat) : CircuitBreaker :=
  let st := b key
  let st := { st with failures := st.failures + 1, lastFailureTime := now }
  match st.state with
  | .closed =>
      if cfg.failureThreshold ≤ st.failures then
        cbUpdate b key (transitionToOpen st)
      else
        cbUpdate b key st
  | .halfOpen => cbUpdate b key (transitionToOpen st)
  | .opened => cbUpdate b key st

/-- One success or failure record with its timestamp, used to replay a
sequence of calls against a breaker. -/
inductive CBEvent where
  | success (t : Nat) : CBEvent
  | failure (t : Nat) : CBEvent
deriving DecidableEq, Repr

/-- Replay a list of records against one key of a breaker. -/
def applyCBEvents (b : CircuitBreaker) (key : String)
    (cfg : CircuitBreakerConfig) : List CBEvent → CircuitBreaker
  | [] => b
  | .success t :: rest => applyCBEvents (recordSuccess b key t) key cfg rest
  | .failure t :: rest => applyCBEvents (recordFailure b key cfg t) key cfg rest

/-- The number of failures recorded after the last recorded success (what
the specification calls consecutive-since-last-success failures). -/
def consecFailuresSinceSuccess (events : List CBEvent) : Nat :=
  events.foldl (fun acc e => match e with
    | .success _ => 0
    | .failure _ => acc + 1) 0

/-- Claim C2 as stated: starting from a fresh breaker, a key's circuit is
open exactly when at least `failureThreshold` consecutive-since-last-
success failures have been recorded, so failures recorded before the most
recent success do not count toward the threshold. -/
def claimC2Stated : Prop :=
  ∀ (cfg : CircuitBreakerConfig) (key : String) (events : List CBEvent),
    0 < cfg.failureThreshold →
    ((applyCBEvents freshBreaker key cfg events key).state = .opened ↔
      cfg.failureThreshold ≤ consecFailuresSinceSuccess events)

/-! ## Retry manager (`src/resilience/RetryManager.ts`)

The asynchronous operation is modelled as a function from the attempt
index to its outcome; `sleep` is recorded as the list of delays that
would be waited, in order. -/

inductive RetryStrategy where
  | fixed : RetryStrategy
  | linear : RetryStrategy
  | exponential : RetryStrategy
deriving DecidableEq, Repr

/-- `IRetryConfig`: `backoffMs` is optional in the source
(`config.backoffMs || 1000`); `0` encodes an absent or zero value, both
of which fall back to the 1000 ms default. -/
structure RetryConfig where
  max : Nat
  strategy : RetryStrategy
  backoffMs : Nat
deriving DecidableEq, Repr

/-- `calculateDelay`: fixed → base, linear → base·attempt, exponential →
base·2^(attempt-1), where base is `backoffMs || 1000`. -/
def calculateDelay (cfg : RetryConfig) (attempt : Nat) : Nat :=
  let baseDelay := if cfg.backoffMs = 0 then 1000 else cfg.backoffMs
  match cfg.strategy with
  | .exponential => baseDelay * 2 ^ (attempt - 1)
  | .linear => baseDelay * attempt
  | .fixed => baseDelay

/-- The observable outcome of `RetryManager.execute`: the settled result,
the number of invocations of the operation, and the backoff delays slept
before each retry, in order. -/
structure RetryRun (ε α : Type) where
  result : Except ε α
  calls : Nat
  delays : List Nat

/-- The body of the retry loop from `attempt`, with `remaining` attempts
left after this one (`remaining = max - attempt`): sleep when
`attempt > 0`, invoke the operation, and on failure stop when
`shouldRetry` rejects the error or attempts are exhausted, otherwise
recurse; the error surfaced at the end is the last attempt's. -/
def retryAux (op : Nat → Except ε α) (cfg : RetryConfig)
    (shouldRetry : ε → Bool) : Nat → Nat → RetryRun ε α
  | attempt, remaining =>
    let delays := if 0 < attempt then [calculateDelay cfg attempt] else []
    match op attempt with
    | .ok a => { result := .ok a, calls := 1, delays := delays }
    | .error e =>
      if shouldRetry e then
        match remaining with
        | 0 => { result := .error e, calls := 1, delays := delays }
        | r + 1 =>
          let rest := retryAux op cfg shouldRetry (attempt + 1) r
          { result := rest.result, calls := 1 + rest.calls,
            delays := delays ++ rest.delays }
      else
        { result := .error e, calls := 1, delays := delays }

/-- `RetryManager.execute`: run the loop for attempts `0..max`.  An
absent `shouldRetry` is `fun _ => true` (the source only aborts when a
provided classifier returns false). -/
def retryExecute (op : Nat → Except ε α) (cfg : RetryConfig)
    (shouldRetry : ε → Bool) : RetryRun ε α :=
  retryAux op cfg shouldRetry 0 cfg.max

/-! ## Rate limiter (`src/unnamed` RateLimiter)

Buckets are an association list keyed by string; `Date.now()` is threaded
as `now`.  The float expression
`Math.floor((timePassed / windowMs) * maxRequests)` is modelled as exact
natural division `timePassed * maxRequests / windowMs`. -/

inductive RLStrategy where
  | sliding : RLStrategy
  | fixedWindow : RLStrategy
deriving DecidableEq, Repr

structure RateLimitConfig where
  maxRequests : Nat
  windowMs : Nat
  strategy : RLStrategy
deriving DecidableEq, Repr

structure RateLimitBucket where
  tokens : Nat
  lastRefill : Nat
  windowStart : Nat
  requestCount : Nat
deriving DecidableEq, Repr

/-- The bucket created by `getBucket` on first use of a key. -/
def freshBucket (cfg : RateLimitConfig) (now : Nat) : RateLimitBucket :=
  { tokens := cfg.maxRequests, lastRefill := now, windowStart := now,
    requestCount := 0 }

/-- `refillSlidingWindow`: after a full window the counter resets;
otherwise it decays by `floor(elapsed/windowMs · maxRequests)` and, when
the decay is positive, `lastRefill` advances. -/
def refillSlidingWindow (b : RateLimitBucket) (cfg : RateLimitConfig)
    (now : Nat) : RateLimitBucket :=
  let timePassed := now - b.lastRefill
  if cfg.windowMs ≤ timePassed then
    { b with requestCount := 0, lastRefill := now }
  else
    let refillAmount := timePassed * cfg.maxRequests / cfg.windowMs
    let b' := { b with requestCount := b.requestCount - refillAmount }
    if 0 < refillAmount then { b' with lastRefill := now } else b'

/-- `checkSlidingWindow`: refill, then admit iff the debited count stays
within `maxRequests`; an admit records the debit and stamps
`lastRefill`. -/
def checkSlidingWindow (b : RateLimitBucket) (cfg : RateLimitConfig)
    (tokens now : Nat) : Bool × RateLimitBucket :=
  let b := refillSlidingWindow b cfg now
  if b.requestCount + tokens ≤ cfg.maxRequests then
    (true, { b with requestCount := b.requestCount + tokens, lastRefill := now })
  else
    (false, b)

/-- `refillFixedWindow`: once `windowMs` has elapsed since `windowStart`
the bucket is reset to the full quota in a new window. -/
def refillFixedWindow (b : RateLimitBucket) (cfg : RateLimitConfig)
    (now : Nat) : RateLimitBucket :=
  if cfg.windowMs ≤ now - b.windowStart then
    { tokens := cfg.maxRequests, requestCount := 0, windowStart := now,
      lastRefill := now }
  else
    b

/-- `checkFixedWindow`: refill, then admit iff enough tokens remain;
an admit debits the tokens. -/
def checkFixedWindow (b : RateLimitBucket) (cfg : RateLimitConfig)
    (tokens now : Nat) : Bool × RateLimitBucket :=
  let b := refillFixedWindow b cfg now
  if tokens ≤ b.tokens then
    (true, { b with tokens := b.tokens - tokens,
                    requestCount := b.requestCount + tokens })
  else
    (false, b)

/-- JS keyed assignment (`Map.set`, `storage.setItem`, object field
write) on an association list: an existing key keeps its position and
gets the new value, a new key is appended. -/
def putAssoc {β : Type} (l : List (String × β)) (key : String) (e : β) :
    List (String × β) :=
  match l.lookup key with
  | some _ => l.map (fun kv => if kv.1 = key then (key, e) else kv)
  | none => l ++ [(key, e)]

/-- The rate limiter's bucket map. -/
abbrev RateLimiter : Type := List (String × RateLimitBucket)

/-- `getBucket`: the existing bucket for the key, or a fresh one. -/
def getBucket (rl : RateLimiter) (key : String) (cfg : RateLimitConfig)
    (now : Nat) : RateLimitBucket :=
  match rl.lookup key with
  | some b => b
  | none => freshBucket cfg now

/-- Store the (mutated-in-place in the source) bucket back in the map. -/
def rlUpdate (rl : RateLimiter) (key : String) (b : RateLimitBucket) :
    RateLimiter :=
  putAssoc rl key b

/-- `checkLimit`: dispatch on the strategy.  The refill's effect on the
bucket persists even when the call is rejected, as the source mutates the
map entry in place. -/
def checkLimit (rl : RateLimiter) (key : String) (cfg : RateLimitConfig)
    (tokens now : Nat) : Bool × RateLimiter :=
  let bucket := getBucket rl key cfg now
  let (allowed, b') :=
    match cfg.strategy with
    | .sliding => checkSlidingWindow bucket cfg tokens now
    | .fixedWindow => checkFixedWindow bucket cfg tokens now
  (allowed, rlUpdate rl key b')

/-- `enforce`: raise `RateLimitError` (the error case) when the bucket
cannot admit the debit, otherwise return the debited limiter. -/
def enforce (rl : RateLimiter) (key : String) (cfg : RateLimitConfig)
    (tokens now : Nat) : Except String RateLimiter :=
  let (allowed, rl') := checkLimit rl key cfg tokens now
  if allowed then .ok rl'
  else .error ("Rate limit exceeded for " ++ key)

/-! ## Cache manager (`src/resilience/CacheManager.ts`)

The durable-local tier (`localStorage`, prefix handling elided: keys are
already the prefixed strings) and the in-memory tier (node-cache: an
entry stores an absolute expiry time, `0` meaning no expiry). -/

structure LSCacheEntry where
  value : JVal
  ttl : Nat
  createdAt : Nat
  accessCount : Nat
  lastAccessed : Nat

/-- One storage area: an association list from keys to entries. -/
abbrev LSStorage : Type := List (String × LSCacheEntry)

/-- Remove a key from a storage area (`localStorage.removeItem`). -/
def lsRemove (st : LSStorage) (key : String) : LSStorage :=
  st.filter (fun kv => kv.1 ≠ key)

/-- Write a key (`localStorage.setItem`): replace in place or append. -/
def lsPut (st : LSStorage) (key : String) (e : LSCacheEntry) : LSStorage :=
  putAssoc st key e

/-- `setToLocalStorage`: store the value with its TTL and creation
time. -/
def setToLocalStorage (st : LSStorage) (key : String) (v : JVal)
    (ttlSeconds now : Nat) : LSStorage :=
  lsPut st key { value := v, ttl := ttlSeconds, createdAt := now,
                 accessCount := 0, lastAccessed := now }

/-- `getFromLocalStorage`: a missing key is `none`; an entry past
`createdAt + ttl·1000` is removed and reported `none`; otherwise the
access stats are updated in place and the value returned. -/
def getFromLocalStorage (st : LSStorage) (key : String) (now : Nat) :
    Option JVal × LSStorage :=
  match st.lookup key with
  | none => (none, st)
  | some e =>
      if e.createdAt + e.ttl * 1000 < now then
        (none, lsRemove st key)
      else
        (some e.value,
         lsPut st key { e with accessCount := e.accessCount + 1,
                               lastAccessed := now })

/-- `CacheManager.get` on the localStorage tier: the returned JS value
(`null` on a miss) together with the hit flag (`value !== null`) and the
updated storage. -/
def cacheGetLS (st : LSStorage) (key : String) (now : Nat) :
    JVal × Bool × LSStorage :=
  let (v, st') := getFromLocalStorage st key now
  match v with
  | some x => if x matches .null then (.null, false, st') else (x, true, st')
  | none => (.null, false, st')

/-- A node-cache entry: the stored value and its absolute expiry time
(`0` = never expires). -/
structure MemEntry where
  value : JVal
  expires : Nat

abbrev MemStorage : Type := List (String × MemEntry)

/-- node-cache `set` with a TTL in seconds. -/
def memSet (st : MemStorage) (key : String) (v : JVal) (ttlSeconds now : Nat) :
    MemStorage :=
  putAssoc st key
    { value := v, expires := if ttlSeconds = 0 then 0 else now + ttlSeconds * 1000 }

/-- node-cache `get`: `none` when the key is absent or its entry has
expired. -/
def memGet (st : MemStorage) (key : String) (now : Nat) : Option JVal :=
  match st.lookup key with
  | none => none
  | some e => if e.expires ≠ 0 ∧ e.expires < now then none else some e.value

/-- `CacheManager.get` on the memory tier:
`value = memoryCache.get(key) || null` collapses a cached falsy value to
`null`, and `value !== null` is the hit flag.  Returns the JS value
(`null` on a miss) and the hit flag. -/
def cacheGetMem (st : MemStorage) (key : String) (now : Nat) : JVal × Bool :=
  let value :=
    match memGet st key now with
    | some x => if jsTruthy x then x else .null
    | none => .null
  if value matches .null then (.null, false) else (value, true)

/-! ## State store (`src/state/StateStore.ts`)

`_.cloneDeep` is the identity on pure values, so clones are elided.  The
event metadata (before/after checksums) does not affect any verified
property and is omitted from the event record; the event id is the
`eventCounter` value used to generate it. -/

inductive PatchOp where
  | add : PatchOp
  | replace : PatchOp
  | remove : PatchOp
deriving DecidableEq, Repr

structure StatePatch where
  op : PatchOp
  path : String
  value : Option JVal

structure StateEvent where
  id : Nat
  timestamp : Nat
  patches : List StatePatch

structure StateSnapshot where
  state : JVal
  timestamp : Nat

structure StateStore where
  currentState : JVal
  history : List StateEvent
  snapshots : List (String × StateSnapshot)
  eventCounter : Nat
  maxHistorySize : Nat
  maxSnapshotSize : Nat

/-- Split a character list on `.`, as JS `split('.')` does (an empty
input yields one empty segment, like JS). -/
def splitDotsAux : List Char → List Char → List String
  | [], acc => [String.mk acc.reverse]
  | c :: rest, acc =>
      if c = '.' then String.mk acc.reverse :: splitDotsAux rest []
      else splitDotsAux rest (c :: acc)

/-- `path.replace(/^\$\./, '')`: strip one leading `$.`. -/
def stripDollarDot : List Char → List Char
  | '$' :: '.' :: rest => rest
  | cs => cs

/-- The dot-path segments of a JSONPath string after the leading `$.` is
stripped (`path.replace(/^\$\./, '')` followed by the dot split lodash
path parsing performs on such paths). -/
def pathSegments (path : String) : List String :=
  splitDotsAux (stripDollarDot path.toList) []

/-- `setValueAtPath`: `$` or the empty path replaces the whole document,
anything else goes through `_.set`. -/
def setValueAtPath (st : JVal) (path : String) (v : JVal) : JVal :=
  if path = "$" ∨ path = "" then v
  else setPath st (pathSegments path) v

/-- `deleteValueAtPath`: `$` or the empty path clears the document to
`{}`, anything else goes through `_.unset`. -/
def deleteValueAtPath (st : JVal) (path : String) : JVal :=
  if path = "$" ∨ path = "" then .obj []
  else deletePath st (pathSegments path)

/-- Read the current document at a JSONPath, with the segmentation used
by `setValueAtPath` (the read counterpart the verified properties
observe). -/
def getValueAtPath (st : JVal) (path : String) : Option JVal :=
  if path = "$" ∨ path = "" then some st
  else getPath st (pathSegments path)

/-- `applyPatch`: add and replace write the value (an absent value writes
JS `undefined`, modelled as `null`), remove deletes the path. -/
def applyPatch (st : JVal) (p : StatePatch) : JVal :=
  match p.op with
  | .add => setValueAtPath st p.path (p.value.getD .null)
  | .replace => setValueAtPath st p.path (p.value.getD .null)
  | .remove => deleteValueAtPath st p.path

/-- `addToHistory`: append the event and drop the oldest one when the
bound is exceeded. -/
def addToHistory (s : StateStore) (e : StateEvent) : StateStore :=
  let history := s.history ++ [e]
  if s.maxHistorySize < history.length then
    { s with history := history.drop 1 }
  else
    { s with history := history }

/-- `applyPatches`: an empty list is a no-op; otherwise apply every patch
in order to the current document and append one event to the history. -/
def applyPatches (s : StateStore) (patches : List StatePatch) (now : Nat) :
    StateStore :=
  if patches.isEmpty then s
  else
    let newState := patches.foldl applyPatch s.currentState
    let s' := { s with currentState := newState,
                       eventCounter := s.eventCounter + 1 }
    addToHistory s' { id := s.eventCounter + 1, timestamp := now,
                      patches := patches }

/-- JS `Map.set`: an existing key keeps its insertion position and gets
the new value, a new key is appended. -/
def snapPut (snaps : List (String × StateSnapshot)) (id : String)
    (sn : StateSnapshot) : List (String × StateSnapshot) :=
  putAssoc snaps id sn

/-- The id of the oldest snapshot: minimal timestamp, earliest insertion
order on ties (`Array.from(entries).sort` is stable). -/
def oldestSnapshotId (snaps : List (String × StateSnapshot)) : Option String :=
  match snaps with
  | [] => none
  | first :: rest =>
      some (rest.foldl
        (fun best kv => if kv.2.timestamp < best.2.timestamp then kv else best)
        first).1

/-- `createSnapshot`: store a full copy of the current document under the
id, then evict the oldest snapshot if the bound is exceeded. -/
def createSnapshot (s : StateStore) (id : String) (now : Nat) : StateStore :=
  let snaps := snapPut s.snapshots id { state := s.currentState, timestamp := now }
  if s.maxSnapshotSize < snaps.length then
    match oldestSnapshotId snaps with
    | some oldId => { s with snapshots := snaps.filter (fun kv => kv.1 ≠ oldId) }
    | none => { s with snapshots := snaps }
  else
    { s with snapshots := snaps }

/-- `restoreSnapshot`: an unknown id throws; otherwise the live document
is replaced wholesale by the snapshot's state and a restore event (a
whole-document replace patch) is appended to the history. -/
def restoreSnapshot (s : StateStore) (id : String) (now : Nat) :
    Except String StateStore :=
  match s.snapshots.lookup id with
  | none => .error ("Snapshot not found: " ++ id)
  | some snapshot =>
      let s' := { s with currentState := snapshot.state,
                         eventCounter := s.eventCounter + 1 }
      .ok (addToHistory s'
        { id := s.eventCounter + 1, timestamp := now,
          patches := [{ op := .replace, path := "$",
                        value := some snapshot.state }] })

/-! ## Request deduplicator (`src/unnamed` RequestDeduplicator)

`execute(key, op)` runs in two steps separated by an `await`:
`checkAndWait` (which either joins the pending entry's resolver list or
reports none) and, when nothing was pending, the invocation of `op`
followed by `registerRequest` (which refuses to register a second entry).
The model is a labelled transition system over one key whose events are
these atomic steps plus the settlement of each operation instance;
results are abstract `Nat` values (a rejection error is fanned out
identically, so one settle label covers both). -/

inductive CallerPhase where
  | idle : CallerPhase
  | checkedNone : CallerPhase
  | joined : CallerPhase
  | runningRegistered : CallerPhase
  | runningUnregistered : CallerPhase
  | done : CallerPhase
deriving DecidableEq, Repr

structure DedupState where
  /-- The pending entry for the key, when present: the caller whose
  operation is registered, and the queued waiter callers in arrival
  order. -/
  pending : Option (Nat × List Nat)
  phase : Nat → CallerPhase
  /-- Number of invocations of the underlying operation. -/
  opCalls : Nat
  /-- The result delivered to each caller, once settled. -/
  delivered : Nat → Option Nat

def dedupInit : DedupState :=
  { pending := none, phase := fun _ => .idle, opCalls := 0,
    delivered := fun _ => none }

def setPhase (f : Nat → CallerPhase) (i : Nat) (p : CallerPhase) :
    Nat → CallerPhase :=
  fun j => if j = i then p else f j

def deliverTo (f : Nat → Option Nat) (xs : List Nat) (v : Nat) :
    Nat → Option Nat :=
  fun j => if j ∈ xs then some v else f j

inductive DedupEv where
  /-- Caller `i` runs `checkAndWait`: it joins the pending entry if one
  exists, otherwise observes that nothing is pending. -/
  | check (i : Nat) : DedupEv
  /-- Caller `i`, having observed nothing pending, resumes after the
  `await`: it invokes the operation and calls `registerRequest`, which
  registers it only if no entry appeared in between. -/
  | resume (i : Nat) : DedupEv
  /-- The registered operation settles with result `v`: `completeRequest`
  fans `v` out to the owner and every queued waiter and deletes the
  entry. -/
  | settleReg (v : Nat) : DedupEv
  /-- The unregistered operation of caller `i` settles with result `v`:
  only `i` receives it (its promise was never registered, so no
  completion handler ran). -/
  | settleUnreg (i : Nat) (v : Nat) : DedupEv
deriving DecidableEq, Repr

/-- One step of the deduplicator; `none` when the event is not enabled in
the given state. -/
def dedupStep (s : DedupState) (e : DedupEv) : Option DedupState :=
  match e with
  | .check i =>
      if s.phase i = .idle then
        match s.pending with
        | some (owner, waiters) =>
            some { s with pending := some (owner, waiters ++ [i]),
                          phase := setPhase s.phase i .joined }
        | none => some { s with phase := setPhase s.phase i .checkedNone }
      else none
  | .resume i =>
      if s.phase i = .checkedNone then
        match s.pending with
        | none =>
            some { s with pending := some (i, []),
                          phase := setPhase s.phase i .runningRegistered,
                          opCalls := s.opCalls + 1 }
        | some _ =>
            some { s with phase := setPhase s.phase i .runningUnregistered,
                          opCalls := s.opCalls + 1 }
      else none
  | .settleReg v =>
      match s.pending with
      | some (owner, waiters) =>
          if s.phase owner = .runningRegistered then
            some { s with pending := none,
                          phase := setPhase s.phase owner .done,
                          delivered := deliverTo s.delivered (owner :: waiters) v }
          else none
      | none => none
  | .settleUnreg i v =>
      if s.phase i = .runningUnregistered then
        some { s with phase := setPhase s.phase i .done,
                      delivered := deliverTo s.delivered [i] v }
      else none

/-- Run a list of events from a state, failing when a step is not
enabled. -/
def dedupRun (s : DedupState) : List DedupEv → Option DedupState
  | [] => some s
  | e :: rest => (dedupStep s e).bind (fun s' => dedupRun s' rest)

def DedupEv.isSettle : DedupEv → Bool
  | .settleReg _ => true
  | .settleUnreg _ _ => true
  | _ => false

def DedupEv.isCheck : DedupEv → Bool
  | .check _ => true
  | _ => false

/-- The calls of a trace overlap in flight when no caller checks after
some operation has already settled: every arrival happens while the
earlier calls are still pending. -/
def overlapping (evs : List DedupEv) : Bool :=
  (evs.dropWhile (fun e => ¬ e.isSettle)).all (fun e => ¬ e.isCheck)

/-- Claim C3 as stated: for every interleaving of concurrent `execute`
calls on one key that overlap in flight, the underlying operation runs at
most once (exactly once when someone ran it) and all callers receive the
identical result. -/
def claimC3Stated : Prop :=
  ∀ (evs : List DedupEv) (s' : DedupState),
    overlapping evs = true →
    dedupRun dedupInit evs = some s' →
    s'.opCalls ≤ 1 ∧
      ∀ i j v w, s'.delivered i = some v → s'.delivered j = some w → v = w

/-! ## Tool orchestrator (`src/executors/ToolOrchestrator.ts`)

`executeTool` (registry lookup plus dispatch to the matching executor) is
modelled as an abstract behavior map from tool id and context to an
outcome: a thrown error or a returned `IToolResult`.  The verified
properties are about `executeSequence`'s control flow, which is generic
in that behavior. -/

/-- The fields of `IToolResult` the sequence runner inspects: the success
flag, the optional data object (`none` is a JS falsy `undefined`/`null`
data field; `some fields` is an object, always truthy), and the optional
error tag. -/
structure ToolResult where
  success : Bool
  data : Option (List (String × JVal))
  err : Option Nat

/-- The failed result synthesized from a thrown error. -/
def errorResult (e : Nat) : ToolResult :=
  { success := false, data := none, err := some e }

inductive ExecOutcome where
  | returns (r : ToolResult) : ExecOutcome
  | throws (e : Nat) : ExecOutcome

/-- The execution context fields the sequence runner touches. -/
structure ToolCtx where
  state : List (String × JVal)
  previousResults : Option (List (String × JVal))

/-- `{...ctx.state, ...data}`: object spread, later fields
overriding. -/
def spreadMerge (base extra : List (String × JVal)) : List (String × JVal) :=
  extra.foldl (fun acc kv => setField acc kv.1 kv.2) base

/-- The context threaded to the next action after a successful result
with truthy data. -/
def threadCtx (ctx : ToolCtx) (d : List (String × JVal)) : ToolCtx :=
  { state := spreadMerge ctx.state d, previousResults := some d }

/-- `executeSequence`: run the ids one at a time in order; a successful
result with truthy data is spread into the next context; a thrown error
is recorded as a failed result and, without `continueOnError`, stops the
run. -/
def executeSequence (exec : String → ToolCtx → ExecOutcome) :
    List String → ToolCtx → Bool → List ToolResult
  | [], _, _ => []
  | id :: rest, ctx, continueOnError =>
    match exec id ctx with
    | .returns r =>
        let ctx' := if r.success && r.data.isSome then
            threadCtx ctx (r.data.getD []) else ctx
        r :: executeSequence exec rest ctx' continueOnError
    | .throws e =>
        if continueOnError then
          errorResult e :: executeSequence exec rest ctx continueOnError
        else
          [errorResult e]

/-- Claim C8 as stated: without `continueOnError` the sequence stops
after the first failed action, so every result before the last reports
success. -/
def claimC8Stated : Prop :=
  ∀ (exec : String → ToolCtx → ExecOutcome) (ids : List String)
    (ctx : ToolCtx),
    ∀ r ∈ (executeSequence exec ids ctx false).dropLast, r.success = true

/-! ## Theorems -/

/-- Lemma: reading back the key just written by `cbUpdate`. -/
theorem cbUpdate_same (b : CircuitBreaker) (key : String)
    (st : CircuitBreakerStats) : cbUpdate b key st key = st := by
  simp [cbUpdate]

/-- C1: for every circuit key, when the breaker is in the open phase and
`resetTimeoutMs` has elapsed since the last recorded failure, the next
`isOpen` check transitions the circuit to half-open and returns `false`;
a subsequent `recordSuccess` transitions it to closed with the failure
counter reset to 0, and a subsequent `recordFailure` transitions it back
to open. -/
theorem C1_open_halfOpen_cycle (b : CircuitBreaker) (key : String)
    (cfg : CircuitBreakerConfig) (now t1 t2 : Nat)
    (hopen : (b key).state = .opened)
    (helapsed : (b key).lastFailureTime + cfg.resetTimeoutMs ≤ now) :
    (isOpen b key cfg now).1 = false ∧
    ((isOpen b key cfg now).2 key).state = .halfOpen ∧
    (recordSuccess (isOpen b key cfg now).2 key t1 key).state = .closed ∧
    (recordSuccess (isOpen b key cfg now).2 key t1 key).failures = 0 ∧
    (recordFailure (isOpen b key cfg now).2 key cfg t2 key).state = .opened := by
  have hcond : (cfg.resetTimeoutMs : Int) ≤ (now : Int) - ((b key).lastFailureTime : Int) := by
    omega
  have hiso : isOpen b key cfg now =
      (false, cbUpdate b key (transitionToHalfOpen (b key))) := by
    simp only [isOpen, hopen]
    rw [if_pos hcond]
  rw [hiso]
  have hkey : cbUpdate b key (transitionToHalfOpen (b key)) key =
      transitionToHalfOpen (b key) := cbUpdate_same ..
  refine ⟨rfl, ?_, ?_, ?_, ?_⟩
  · show (cbUpdate b key (transitionToHalfOpen (b key)) key).state = CBState.halfOpen
    rw [hkey]
    rfl
  · simp [recordSuccess, hkey, transitionToHalfOpen, transitionToClosed,
      cbUpdate_same]
  · simp [recordSuccess, hkey, transitionToHalfOpen, transitionToClosed,
      cbUpdate_same]
  · simp [recordFailure, hkey, transitionToHalfOpen, transitionToOpen,
      cbUpdate_same]

/-- Witness for C1 at a concrete breaker: key `"k"` opened with last
failure at 100, reset timeout 60000, checked at 60100. -/
theorem C1_open_halfOpen_cycle_witness :
    ((cbUpdate freshBreaker "k"
        { failures := 5, successes := 0, lastFailureTime := 100,
          lastSuccessTime := 0, state := .opened } "k").state = CBState.opened ∧
     (cbUpdate freshBreaker "k"
        { failures := 5, successes := 0, lastFailureTime := 100,
          lastSuccessTime := 0, state := .opened } "k").lastFailureTime +
        (⟨5, 60000⟩ : CircuitBreakerConfig).resetTimeoutMs ≤ 60100) ∧
    ((isOpen (cbUpdate freshBreaker "k"
        { failures := 5, successes := 0, lastFailureTime := 100,
          lastSuccessTime := 0, state := .opened }) "k" ⟨5, 60000⟩ 60100).1 = false ∧
     ((isOpen (cbUpdate freshBreaker "k"
        { failures := 5, successes := 0, lastFailureTime := 100,
          lastSuccessTime := 0, state := .opened }) "k" ⟨5, 60000⟩ 60100).2 "k").state = .halfOpen ∧
     (recordSuccess (isOpen (cbUpdate freshBreaker "k"
        { failures := 5, successes := 0, lastFailureTime := 100,
          lastSuccessTime := 0, state := .opened }) "k" ⟨5, 60000⟩ 60100).2 "k" 60200 "k").state = .closed ∧
     (recordSuccess (isOpen (cbUpdate freshBreaker "k"
        { failures := 5, successes := 0, lastFailureTime := 100,
          lastSuccessTime := 0, state := .opened }) "k" ⟨5, 60000⟩ 60100).2 "k" 60200 "k").failures = 0 ∧
     (recordFailure (isOpen (cbUpdate freshBreaker "k"
        { failures := 5, successes := 0, lastFailureTime := 100,
          lastSuccessTime := 0, state := .opened }) "k" ⟨5, 60000⟩ 60100).2 "k" ⟨5, 60000⟩ 60300 "k").state = .opened) :=
  ⟨⟨by decide, by decide⟩,
   C1_open_halfOpen_cycle _ "k" ⟨5, 60000⟩ 60100 60200 60300 (by decide) (by decide)⟩

/-- C2 counterexample: the claim that failures recorded before the most
recent success while closed do not count toward the threshold is false.
With threshold 2, the run failure–success–failure (one consecutive-
since-last-success failure) opens the circuit, because a success in the
closed phase does not reset the failure counter. -/
theorem C2_counterexample : ¬ claimC2Stated := by
  intro h
  have h2 := (h ⟨2, 60000⟩ "k" [.failure 1, .success 2, .failure 3]
    (by decide)).mp (by decide)
  exact absurd h2 (by decide)

/-- C2 amended: while closed, `recordFailure` transitions the circuit to
open exactly when the cumulative failure counter (counting every failure
since the circuit last transitioned to closed, or since creation)
reaches `failureThreshold`; a success recorded while closed leaves the
phase closed and the failure counter unchanged, so failures recorded
before the most recent success still count. -/
theorem C2_amended (b : CircuitBreaker) (key : String)
    (cfg : CircuitBreakerConfig) (t1 t2 : Nat)
    (hclosed : (b key).state = .closed) :
    ((recordFailure b key cfg t1 key).state = .opened ↔
      cfg.failureThreshold ≤ (b key).failures + 1) ∧
    (recordSuccess b key t2 key).state = .closed ∧
    (recordSuccess b key t2 key).failures = (b key).failures := by
  refine ⟨?_, ?_, ?_⟩
  · by_cases hth : cfg.failureThreshold ≤ (b key).failures + 1
    · simp [recordFailure, hclosed, hth, transitionToOpen, cbUpdate_same]
    · simp [recordFailure, hclosed, hth, transitionToOpen, cbUpdate_same]
  · simp [recordSuccess, hclosed, cbUpdate_same]
  · simp [recordSuccess, hclosed, cbUpdate_same]

/-- Witness for C2 amended: a fresh (closed) circuit with threshold 1
opens on its first failure, and a success leaves the counter at 0. -/
theorem C2_amended_witness :
    (freshBreaker "k").state = CBState.closed ∧
    (((recordFailure freshBreaker "k" ⟨1, 60000⟩ 5 "k").state = .opened ↔
       (⟨1, 60000⟩ : CircuitBreakerConfig).failureThreshold ≤
         (freshBreaker "k").failures + 1) ∧
     (recordSuccess freshBreaker "k" 6 "k").state = .closed ∧
     (recordSuccess freshBreaker "k" 6 "k").failures = (freshBreaker "k").failures) :=
  ⟨by decide, C2_amended freshBreaker "k" ⟨1, 60000⟩ 5 6 (by decide)⟩

/-- Lemma: the retry loop invokes the operation at least once. -/
theorem retryAux_calls_pos (op : Nat → Except ε α) (cfg : RetryConfig)
    (p : ε → Bool) (r attempt : Nat) :
    1 ≤ (retryAux op cfg p attempt r).calls := by
  unfold retryAux
  cases hop : op attempt with
  | ok a => simp
  | error e =>
    cases hp : p e with
    | true => cases r <;> simp [hp]
    | false => simp [hp]

/-- Lemma: from `attempt` with `remaining` attempts left, the loop
invokes the operation at most `remaining + 1` times. -/
theorem retryAux_calls_le (op : Nat → Except ε α) (cfg : RetryConfig)
    (p : ε → Bool) : ∀ (r attempt : Nat),
    (retryAux op cfg p attempt r).calls ≤ r + 1 := by
  intro r
  induction r with
  | zero =>
    intro attempt
    unfold retryAux
    cases hop : op attempt with
    | ok a => simp
    | error e => cases hp : p e <;> simp
  | succ r ih =>
    intro attempt
    unfold retryAux
    cases hop : op attempt with
    | ok a => simp
    | error e =>
      cases hp : p e with
      | true =>
        have := ih (attempt + 1)
        simp only [hp, if_true]
        show 1 + (retryAux op cfg p (attempt + 1) r).calls ≤ r + 1 + 1
        omega
      | false => simp [hp]

/-- Lemma: starting at a positive attempt index, the delays slept are
exactly the strategy delays for the attempts actually retried. -/
theorem retryAux_delays (op : Nat → Except ε α) (cfg : RetryConfig)
    (p : ε → Bool) : ∀ (r attempt : Nat), 1 ≤ attempt →
    (retryAux op cfg p attempt r).delays =
      (List.range (retryAux op cfg p attempt r).calls).map
        (fun j => calculateDelay cfg (attempt + j)) := by
  intro r
  induction r with
  | zero =>
    intro attempt h1
    have hpos : 0 < attempt := h1
    unfold retryAux
    cases hop : op attempt with
    | ok a => simp [hpos, show List.range 1 = [0] from rfl]
    | error e => cases hp : p e <;> simp [hp, hpos, show List.range 1 = [0] from rfl]
  | succ r ih =>
    intro attempt h1
    have hpos : 0 < attempt := h1
    unfold retryAux
    cases hop : op attempt with
    | ok a => simp [hpos, show List.range 1 = [0] from rfl]
    | error e =>
      cases hp : p e with
      | true =>
        simp only [hp, if_true, if_pos hpos]
        rw [ih (attempt + 1) (by omega)]
        rw [Nat.add_comm 1 ((retryAux op cfg p (attempt + 1) r).calls)]
        rw [List.range_succ_eq_map, List.map_cons, List.map_map]
        simp only [List.singleton_append]
        congr 1
        apply List.map_congr_left
        intro a _
        congr 1
        omega
      | false => simp [hp, hpos, show List.range 1 = [0] from rfl]

/-- Lemma: when the loop surfaces an error, it is the error of the last
attempt actually made. -/
theorem retryAux_last_error (op : Nat → Except ε α) (cfg : RetryConfig)
    (p : ε → Bool) : ∀ (r attempt : Nat) (e : ε),
    (retryAux op cfg p attempt r).result = .error e →
    op (attempt + (retryAux op cfg p attempt r).calls - 1) = .error e := by
  intro r
  induction r with
  | zero =>
    intro attempt e hres
    cases hop : op attempt with
    | ok a =>
      unfold retryAux at hres
      rw [hop] at hres
      simp at hres
    | error e' =>
      unfold retryAux at hres ⊢
      rw [hop] at hres ⊢
      cases hp : p e' with
      | true =>
        simp only [hp, if_true] at hres ⊢
        simp only [Except.error.injEq] at hres
        simpa [hres] using hop
      | false =>
        simp only [hp, Bool.false_eq_true, if_false] at hres ⊢
        simp only [Except.error.injEq] at hres
        simpa [hres] using hop
  | succ r ih =>
    intro attempt e hres
    cases hop : op attempt with
    | ok a =>
      unfold retryAux at hres
      rw [hop] at hres
      simp at hres
    | error e' =>
      unfold retryAux at hres ⊢
      rw [hop] at hres ⊢
      cases hp : p e' with
      | true =>
        simp only [hp, if_true] at hres ⊢
        have := ih (attempt + 1) e hres
        have harith : attempt + (1 + (retryAux op cfg p (attempt + 1) r).calls) - 1 =
            attempt + 1 + (retryAux op cfg p (attempt + 1) r).calls - 1 := by omega
        show op (attempt + (1 + (retryAux op cfg p (attempt + 1) r).calls) - 1) = .error e
        rw [harith]
        exact this
      | false =>
        simp only [hp, Bool.false_eq_true, if_false] at hres ⊢
        simp only [Except.error.injEq] at hres
        simpa [hres] using hop

/-- C5: `RetryManager.execute` invokes the operation at most `max + 1`
times; before retry attempt `n ≥ 1` it waits `backoffMs` (fixed),
`backoffMs·n` (linear) or `backoffMs·2^(n-1)` (exponential); and when
`shouldRetry` rejects the error or the attempts are exhausted, the error
surfaced to the caller is exactly the error of the last failed
attempt. -/
theorem C5_retry_execute (op : Nat → Except ε α) (cfg : RetryConfig)
    (p : ε → Bool) (hb : cfg.backoffMs ≠ 0) :
    (retryExecute op cfg p).calls ≤ cfg.max + 1 ∧
    (retryExecute op cfg p).delays =
      (List.range ((retryExecute op cfg p).calls - 1)).map
        (fun j => match cfg.strategy with
          | .fixed => cfg.backoffMs
          | .linear => cfg.backoffMs * (j + 1)
          | .exponential => cfg.backoffMs * 2 ^ j) ∧
    (∀ e, (retryExecute op cfg p).result = .error e →
      op ((retryExecute op cfg p).calls - 1) = .error e) := by
  have hdelay : ∀ j, calculateDelay cfg (j + 1) =
      (match cfg.strategy with
        | .fixed => cfg.backoffMs
        | .linear => cfg.backoffMs * (j + 1)
        | .exponential => cfg.backoffMs * 2 ^ j) := by
    intro j
    cases hs : cfg.strategy <;> simp [calculateDelay, hs, hb]
  have hmain : (retryExecute op cfg p).delays =
      (List.range ((retryExecute op cfg p).calls - 1)).map
        (fun j => calculateDelay cfg (j + 1)) := by
    unfold retryExecute
    unfold retryAux
    cases hop : op 0 with
    | ok a => simp
    | error e =>
      cases hp : p e with
      | false => simp [hp]
      | true =>
        cases hm : cfg.max with
        | zero => simp [hp]
        | succ m =>
          simp only [hp, if_true]
          show (retryAux op cfg p 1 m).delays =
            (List.range (1 + (retryAux op cfg p 1 m).calls - 1)).map
              (fun j => calculateDelay cfg (j + 1))
          have hc : 1 + (retryAux op cfg p 1 m).calls - 1 =
              (retryAux op cfg p 1 m).calls := by omega
          rw [hc, retryAux_delays op cfg p m 1 (le_refl 1)]
          apply List.map_congr_left
          intro a _
          congr 1
          omega
  refine ⟨retryAux_calls_le op cfg p cfg.max 0, ?_, ?_⟩
  · rw [hmain]
    apply List.map_congr_left
    intro a _
    exact hdelay a
  · intro e hres
    have := retryAux_last_error op cfg p cfg.max 0 e hres
    simpa using this

/-- Witness for C5: an operation that always fails with error 7, max 2
retries, linear strategy with 10 ms backoff. -/
theorem C5_retry_execute_witness :
    ((⟨2, .linear, 10⟩ : RetryConfig).backoffMs ≠ 0) ∧
    ((retryExecute (fun _ => (Except.error 7 : Except Nat Nat)) ⟨2, .linear, 10⟩
        (fun _ => true)).calls ≤ (⟨2, .linear, 10⟩ : RetryConfig).max + 1 ∧
     (retryExecute (fun _ => (Except.error 7 : Except Nat Nat)) ⟨2, .linear, 10⟩
        (fun _ => true)).delays =
       (List.range ((retryExecute (fun _ => (Except.error 7 : Except Nat Nat))
          ⟨2, .linear, 10⟩ (fun _ => true)).calls - 1)).map
         (fun j => match (⟨2, .linear, 10⟩ : RetryConfig).strategy with
           | .fixed => (⟨2, .linear, 10⟩ : RetryConfig).backoffMs
           | .linear => (⟨2, .linear, 10⟩ : RetryConfig).backoffMs * (j + 1)
           | .exponential => (⟨2, .linear, 10⟩ : RetryConfig).backoffMs * 2 ^ j) ∧
     (∀ e, (retryExecute (fun _ => (Except.error 7 : Except Nat Nat)) ⟨2, .linear, 10⟩
        (fun _ => true)).result = .error e →
       (fun _ => (Except.error 7 : Except Nat Nat))
         ((retryExecute (fun _ => (Except.error 7 : Except Nat Nat)) ⟨2, .linear, 10⟩
            (fun _ => true)).calls - 1) = .error e)) :=
  ⟨by decide,
   C5_retry_execute (fun _ => (Except.error 7 : Except Nat Nat)) ⟨2, .linear, 10⟩
     (fun _ => true) (by decide)⟩

/-- C4: a bucket configured for quota 3 per 1000 ms admits exactly the
first 3 `enforce` calls, raises `RateLimitError` on the 4th call in the
same window, and admits again once the window rotates (shown for both
strategies); and under the sliding strategy the admitted count decays by
`floor(elapsed/windowMs · quota)` since the last refill. -/
theorem C4_rate_limiter (key : String) (strat : RLStrategy) (t : Nat) :
    (∃ rl1 rl2 rl3 : RateLimiter,
      enforce [] key ⟨3, 1000, strat⟩ 1 t = .ok rl1 ∧
      enforce rl1 key ⟨3, 1000, strat⟩ 1 t = .ok rl2 ∧
      enforce rl2 key ⟨3, 1000, strat⟩ 1 t = .ok rl3 ∧
      (∃ msg, enforce rl3 key ⟨3, 1000, strat⟩ 1 t = .error msg) ∧
      (∃ rl4, enforce rl3 key ⟨3, 1000, strat⟩ 1 (t + 1000) = .ok rl4)) ∧
    (∀ (b : RateLimitBucket) (cfg : RateLimitConfig) (now : Nat),
      now - b.lastRefill < cfg.windowMs →
      (refillSlidingWindow b cfg now).requestCount =
        b.requestCount - ((now - b.lastRefill) * cfg.maxRequests / cfg.windowMs)) := by
  constructor
  · cases strat with
    | sliding =>
      refine ⟨[(key, ⟨3, t, t, 1⟩)], [(key, ⟨3, t, t, 2⟩)], [(key, ⟨3, t, t, 3⟩)],
        ?_, ?_, ?_, ⟨"Rate limit exceeded for " ++ key, ?_⟩, ?_⟩ <;>
        simp [enforce, checkLimit, getBucket, rlUpdate, putAssoc, freshBucket,
          checkSlidingWindow, refillSlidingWindow, List.lookup]
    | fixedWindow =>
      refine ⟨[(key, ⟨2, t, t, 1⟩)], [(key, ⟨1, t, t, 2⟩)], [(key, ⟨0, t, t, 3⟩)],
        ?_, ?_, ?_, ⟨"Rate limit exceeded for " ++ key, ?_⟩, ?_⟩ <;>
        simp [enforce, checkLimit, getBucket, rlUpdate, putAssoc, freshBucket,
          checkFixedWindow, refillFixedWindow, List.lookup]
  · intro b cfg now h
    unfold refillSlidingWindow
    rw [if_neg (by omega)]
    by_cases h0 : 0 < (now - b.lastRefill) * cfg.maxRequests / cfg.windowMs
    · simp [h0]
    · simp [h0]

/-- Witness for C4 at key `"k"`, sliding strategy, window anchored at 0;
the decay conjunct is checked at a bucket with 3 admits and 500 ms
elapsed: the count decays by floor(500/1000·3) = 1. -/
theorem C4_rate_limiter_witness :
    (∃ rl1 rl2 rl3 : RateLimiter,
      enforce [] "k" ⟨3, 1000, .sliding⟩ 1 0 = .ok rl1 ∧
      enforce rl1 "k" ⟨3, 1000, .sliding⟩ 1 0 = .ok rl2 ∧
      enforce rl2 "k" ⟨3, 1000, .sliding⟩ 1 0 = .ok rl3 ∧
      (∃ msg, enforce rl3 "k" ⟨3, 1000, .sliding⟩ 1 0 = .error msg) ∧
      (∃ rl4, enforce rl3 "k" ⟨3, 1000, .sliding⟩ 1 1000 = .ok rl4)) ∧
    ((500 : Nat) - (⟨3, 0, 0, 3⟩ : RateLimitBucket).lastRefill <
        (⟨3, 1000, .sliding⟩ : RateLimitConfig).windowMs ∧
      (refillSlidingWindow ⟨3, 0, 0, 3⟩ ⟨3, 1000, .sliding⟩ 500).requestCount = 2) := by
  have h := C4_rate_limiter "k" .sliding 0
  refine ⟨h.1, by decide, ?_⟩
  have h2 := h.2 ⟨3, 0, 0, 3⟩ ⟨3, 1000, .sliding⟩ 500 (by decide)
  simpa using h2

/-- Lemma: appending a fresh binding makes it visible to lookup. -/
theorem lookup_append_single {β : Type} (l : List (String × β)) (key : String)
    (e : β) (h : l.lookup key = none) :
    (l ++ [(key, e)]).lookup key = some e := by
  induction l with
  | nil => simp [List.lookup]
  | cons hd tl ih =>
    obtain ⟨k, b⟩ := hd
    simp only [List.lookup, List.cons_append] at h ⊢
    cases hbeq : (key == k) with
    | true =>
      rw [hbeq] at h
      exact absurd h (by simp)
    | false =>
      rw [hbeq] at h
      exact ih h

/-- Lemma: overwriting an existing binding in place makes the new value
visible to lookup. -/
theorem lookup_map_put {β : Type} (l : List (String × β)) (key : String)
    (e : β) (hx : (l.lookup key).isSome) :
    (l.map (fun kv => if kv.1 = key then (key, e) else kv)).lookup key = some e := by
  induction l with
  | nil => simp at hx
  | cons hd tl ih =>
    obtain ⟨k, b⟩ := hd
    by_cases hk : k = key
    · subst hk
      have hhead : (fun kv => if kv.1 = k then (k, e) else kv)
          ((k, b) : String × β) = (k, e) := by simp
      simp only [List.map_cons, hhead]
      simp [List.lookup]
    · have hbeq : (key == k) = false := by
        simp only [beq_eq_false_iff_ne, ne_eq]
        intro hc
        exact hk hc.symm
      simp only [List.map_cons]
      rw [if_neg (by simpa using hk)]
      simp only [List.lookup, hbeq] at hx ⊢
      exact ih hx

/-- Lemma: the binding just written by `putAssoc` is the one lookup
finds. -/
theorem lookup_putAssoc_same {β : Type} (l : List (String × β)) (key : String)
    (e : β) : (putAssoc l key e).lookup key = some e := by
  unfold putAssoc
  cases h : l.lookup key with
  | none => exact lookup_append_single l key e h
  | some x => exact lookup_map_put l key e (by simp [h])

/-- Lemma: after filtering a key out, lookup no longer finds it. -/
theorem lookup_filter_ne {β : Type} (l : List (String × β)) (key : String) :
    (l.filter (fun kv => kv.1 ≠ key)).lookup key = none := by
  induction l with
  | nil => simp
  | cons hd tl ih =>
    obtain ⟨k, b⟩ := hd
    by_cases hk : k = key
    · subst hk
      simp [List.filter_cons, ih]
      intro a b _ hak hka
      exact hak hka.symm
    · have hbeq : (key == k) = false := by
        simp only [beq_eq_false_iff_ne, ne_eq]
        intro hc
        exact hk hc.symm
      simp only [List.filter_cons]
      rw [if_pos (by simpa using hk)]
      simp only [List.lookup, hbeq]
      exact ih

/-- C9: an entry set in the durable-local tier with `ttlSeconds = 1` is
returned by `get` at any time up to 1 s after being set; once more than
1 s has elapsed (`now > createdAt + ttl·1000`) the same `get` reports a
miss (`null`, hit flag false) and physically removes the entry from the
tier. -/
theorem C9_cache_ttl (st : LSStorage) (key : String) (v : JVal) (t u : Nat) :
    (u ≤ t + 1000 →
      (getFromLocalStorage (setToLocalStorage st key v 1 t) key u).1 = some v) ∧
    (t + 1000 < u →
      (cacheGetLS (setToLocalStorage st key v 1 t) key u).1 = .null ∧
      (cacheGetLS (setToLocalStorage st key v 1 t) key u).2.1 = false ∧
      ((cacheGetLS (setToLocalStorage st key v 1 t) key u).2.2).lookup key = none) := by
  have hlook := lookup_putAssoc_same st key
    ({ value := v, ttl := 1, createdAt := t, accessCount := 0,
       lastAccessed := t } : LSCacheEntry)
  constructor
  · intro hle
    have hc : ¬ (t + 1 * 1000 < u) := by omega
    simp [getFromLocalStorage, setToLocalStorage, lsPut, hlook, hc]
  · intro hgt
    have hc : t + 1 * 1000 < u := by omega
    have hget : getFromLocalStorage (setToLocalStorage st key v 1 t) key u =
        (none, lsRemove (setToLocalStorage st key v 1 t) key) := by
      simp [getFromLocalStorage, setToLocalStorage, lsPut, hlook, hc]
    refine ⟨?_, ?_, ?_⟩
    · simp [cacheGetLS, hget]
    · simp [cacheGetLS, hget]
    · have hfil := lookup_filter_ne (setToLocalStorage st key v 1 t) key
      simpa [cacheGetLS, hget, lsRemove] using hfil

/-- Witness for C9 at the empty tier, key `"k"`, value 5, set at time 0:
read back at 0 (within TTL) and at 2000 (expired). -/
theorem C9_cache_ttl_witness :
    ((0 : Nat) ≤ 0 + 1000 ∧ 0 + 1000 < 2000) ∧
    (getFromLocalStorage (setToLocalStorage [] "k" (.num 5) 1 0) "k" 0).1 =
      some (.num 5) ∧
    (cacheGetLS (setToLocalStorage [] "k" (.num 5) 1 0) "k" 2000).1 = .null ∧
    (cacheGetLS (setToLocalStorage [] "k" (.num 5) 1 0) "k" 2000).2.1 = false ∧
    ((cacheGetLS (setToLocalStorage [] "k" (.num 5) 1 0) "k" 2000).2.2).lookup "k" =
      none := by
  have h1 := (C9_cache_ttl [] "k" (.num 5) 0 0).1 (by decide)
  have h2 := (C9_cache_ttl [] "k" (.num 5) 0 2000).2 (by decide)
  exact ⟨⟨by decide, by decide⟩, h1, h2.1, h2.2.1, h2.2.2⟩

/-- C10: on the in-memory tier, a `set` followed immediately by a `get`
(before any TTL expiry) returns the value with a hit exactly when the
value is JS-truthy; a cached falsy value (`0`, `""`, `false`, `null`)
comes back as `null` with a miss, indistinguishable from a `get` on an
absent key. -/
theorem C10_memory_falsy_get (st : MemStorage) (key : String) (v : JVal)
    (ttl now : Nat) :
    cacheGetMem (memSet st key v ttl now) key now =
      (if jsTruthy v then (v, true) else (.null, false)) ∧
    cacheGetMem [] key now = (.null, false) := by
  have hlook := lookup_putAssoc_same st key
    ({ value := v, expires := if ttl = 0 then 0 else now + ttl * 1000 } : MemEntry)
  have hcond : ¬ ((if ttl = 0 then 0 else now + ttl * 1000) ≠ 0 ∧
      (if ttl = 0 then 0 else now + ttl * 1000) < now) := by
    intro hcontra
    rcases hcontra with ⟨hne, hlt⟩
    by_cases h : ttl = 0
    · rw [if_pos h] at hne
      exact hne rfl
    · rw [if_neg h] at hlt
      omega
  have hmem : memGet (memSet st key v ttl now) key now = some v := by
    simp [memGet, memSet, hlook, hcond]
    intro h1 _
    rw [if_neg h1]
    omega
  constructor
  · unfold cacheGetMem
    rw [hmem]
    cases v with
    | null => simp [jsTruthy]
    | bool b => cases b <;> simp [jsTruthy]
    | num n => by_cases hn : n = 0 <;> simp [jsTruthy, hn]
    | str s => by_cases hs : s = "" <;> simp [jsTruthy, hs]
    | obj f => simp [jsTruthy]
  · simp [cacheGetMem, memGet, List.lookup]

/-- Lemma: the field just written by `setField` is the one `lookupField`
finds. -/
theorem lookupField_setField_same (fields : List (String × JVal))
    (k : String) (v : JVal) :
    lookupField (setField fields k v) k = some v := by
  induction fields with
  | nil => simp [setField, lookupField]
  | cons hd tl ih =>
    obtain ⟨k', v'⟩ := hd
    by_cases hk : k' = k
    · simp [setField, hk, lookupField]
    · simp [setField, hk, lookupField, ih]

/-- Lemma: writing a non-empty dot-path into an object document and
reading the same path back yields the written value. -/
theorem getPath_setPath : ∀ (p : List String) (fields : List (String × JVal))
    (v : JVal), p ≠ [] →
    getPath (setPath (.obj fields) p v) p = some v := by
  intro p
  induction p with
  | nil =>
    intro _ _ h
    exact absurd rfl h
  | cons k rest ih =>
    intro fields v _
    cases rest with
    | nil => simp [setPath, getPath, lookupField_setField_same]
    | cons k2 rest2 =>
      have hchild : ∃ cf, childObj fields k = .obj cf := by
        unfold childObj
        cases lookupField fields k with
        | none => exact ⟨[], rfl⟩
        | some c => cases c <;> exact ⟨_, rfl⟩
      obtain ⟨cf, hcf⟩ := hchild
      show getPath (.obj (setField fields k
        (setPath (childObj fields k) (k2 :: rest2) v))) (k :: k2 :: rest2) = some v
      simp only [getPath, lookupField_setField_same]
      rw [hcf]
      exact ih cf v (by simp)

/-- C6: applying the single patch
`{op: replace, path: "$.form.make.value", value: "Toyota"}` to any object
state document makes a read of the current state at that path return
`"Toyota"`, and (below the history bound) grows the event log by exactly
one event. -/
theorem C6_applyPatches_replace_read (s : StateStore)
    (fields : List (String × JVal)) (now : Nat)
    (hobj : s.currentState = .obj fields)
    (hcap : s.history.length < s.maxHistorySize) :
    getValueAtPath (applyPatches s
      [{ op := .replace, path := "$.form.make.value",
         value := some (.str "Toyota") }] now).currentState
      "$.form.make.value" = some (.str "Toyota") ∧
    (applyPatches s
      [{ op := .replace, path := "$.form.make.value",
         value := some (.str "Toyota") }] now).history.length =
      s.history.length + 1 := by
  have hroot : ¬ (("$.form.make.value" : String) = "$" ∨
      ("$.form.make.value" : String) = "") := by decide
  have hseg : pathSegments "$.form.make.value" = ["form", "make", "value"] := by
    decide
  have hstate : (applyPatches s
      [{ op := .replace, path := "$.form.make.value",
         value := some (.str "Toyota") }] now).currentState =
      setPath (.obj fields) ["form", "make", "value"] (.str "Toyota") := by
    simp [applyPatches, addToHistory, applyPatch, setValueAtPath, hroot, hseg, hobj]
    split <;> rfl
  constructor
  · rw [hstate]
    unfold getValueAtPath
    rw [if_neg hroot, hseg]
    exact getPath_setPath _ fields _ (by simp)
  · simp only [applyPatches, List.isEmpty_cons, Bool.false_eq_true, if_false,
      addToHistory]
    rw [if_neg (by simp; omega)]
    simp

/-- Witness for C6 at the empty document and history bound 1000. -/
theorem C6_applyPatches_replace_read_witness :
    (({ currentState := .obj [], history := [], snapshots := [],
        eventCounter := 0, maxHistorySize := 1000,
        maxSnapshotSize := 50 } : StateStore).currentState = JVal.obj [] ∧
      (({ currentState := .obj [], history := [], snapshots := [],
          eventCounter := 0, maxHistorySize := 1000,
          maxSnapshotSize := 50 } : StateStore)).history.length < 1000) ∧
    (getValueAtPath (applyPatches
      { currentState := .obj [], history := [], snapshots := [],
        eventCounter := 0, maxHistorySize := 1000, maxSnapshotSize := 50 }
      [{ op := .replace, path := "$.form.make.value",
         value := some (.str "Toyota") }] 5).currentState
      "$.form.make.value" = some (.str "Toyota") ∧
     (applyPatches
      { currentState := .obj [], history := [], snapshots := [],
        eventCounter := 0, maxHistorySize := 1000, maxSnapshotSize := 50 }
      [{ op := .replace, path := "$.form.make.value",
         value := some (.str "Toyota") }] 5).history.length =
      ({ currentState := .obj [], history := [], snapshots := [],
         eventCounter := 0, maxHistorySize := 1000,
         maxSnapshotSize := 50 } : StateStore).history.length + 1) :=
  ⟨⟨rfl, by decide⟩,
   C6_applyPatches_replace_read
     { currentState := .obj [], history := [], snapshots := [],
       eventCounter := 0, maxHistorySize := 1000, maxSnapshotSize := 50 }
     [] 5 rfl (by decide)⟩

/-- Lemma: a keyed write grows the map by at most one entry. -/
theorem length_putAssoc_le {β : Type} (l : List (String × β)) (key : String)
    (e : β) : (putAssoc l key e).length ≤ l.length + 1 := by
  unfold putAssoc
  cases h : l.lookup key
  · simp
  · simp

/-- Lemma: below the snapshot bound, `createSnapshot` stores the snapshot
without evicting anything. -/
theorem createSnapshot_no_evict (s : StateStore) (id : String) (now : Nat)
    (hsz : s.snapshots.length < s.maxSnapshotSize) :
    createSnapshot s id now =
      { s with snapshots :=
          snapPut s.snapshots id { state := s.currentState, timestamp := now } } := by
  unfold createSnapshot
  rw [if_neg]
  intro hcon
  have := length_putAssoc_le s.snapshots id
    ({ state := s.currentState, timestamp := now } : StateSnapshot)
  unfold snapPut at hcon
  omega

/-- Lemma: appending to the history never touches the snapshot map. -/
theorem addToHistory_snapshots (s : StateStore) (e : StateEvent) :
    (addToHistory s e).snapshots = s.snapshots := by
  unfold addToHistory
  by_cases hh : s.maxHistorySize < s.history.length + 1
  · simp [hh]
  · simp [hh]

/-- Lemma: applying patches never touches the snapshot map. -/
theorem applyPatches_snapshots (s : StateStore) (ps : List StatePatch)
    (now : Nat) : (applyPatches s ps now).snapshots = s.snapshots := by
  unfold applyPatches
  split
  · rfl
  · simp [addToHistory_snapshots]

/-- Lemma: a whole sequence of patch batches never touches the snapshot
map. -/
theorem foldl_applyPatches_snapshots :
    ∀ (batches : List (List StatePatch × Nat)) (acc : StateStore),
    (batches.foldl (fun acc pb => applyPatches acc pb.1 pb.2) acc).snapshots =
      acc.snapshots := by
  intro batches
  induction batches with
  | nil => intro acc; rfl
  | cons hd tl ih =>
    intro acc
    rw [List.foldl_cons, ih, applyPatches_snapshots]

/-- Lemma: appending to the history never touches the document. -/
theorem addToHistory_currentState (s : StateStore) (e : StateEvent) :
    (addToHistory s e).currentState = s.currentState := by
  unfold addToHistory
  by_cases hh : s.maxHistorySize < s.history.length + 1
  · simp [hh]
  · simp [hh]

/-- C7: creating a checkpoint, applying any sequence of patch batches,
then restoring the checkpoint succeeds and leaves the current state
equal to the document exactly as it was at checkpoint-creation time
(below the snapshot bound, so the checkpoint is not evicted). -/
theorem C7_checkpoint_restore (s : StateStore) (id : String)
    (batches : List (List StatePatch × Nat)) (t1 t2 : Nat)
    (hsz : s.snapshots.length < s.maxSnapshotSize) :
    ∃ s3, restoreSnapshot
        (batches.foldl (fun acc pb => applyPatches acc pb.1 pb.2)
          (createSnapshot s id t1)) id t2 = .ok s3 ∧
      s3.currentState = s.currentState := by
  have hcr := createSnapshot_no_evict s id t1 hsz
  have hlook : ((batches.foldl (fun acc pb => applyPatches acc pb.1 pb.2)
      (createSnapshot s id t1)).snapshots).lookup id =
      some { state := s.currentState, timestamp := t1 } := by
    rw [foldl_applyPatches_snapshots, hcr]
    exact lookup_putAssoc_same s.snapshots id _
  unfold restoreSnapshot
  rw [hlook]
  exact ⟨_, rfl, addToHistory_currentState _ _⟩

/-- Witness for C7: a one-field document, checkpoint `"a"`, one mutation
overwriting the field, then restore. -/
theorem C7_checkpoint_restore_witness :
    (({ currentState := .obj [("x", .num 1)], history := [], snapshots := [],
        eventCounter := 0, maxHistorySize := 1000,
        maxSnapshotSize := 50 } : StateStore)).snapshots.length < 50 ∧
    ∃ s3, restoreSnapshot
        (([([{ op := .replace, path := "$.x", value := some (.num 2) }], 7)] :
            List (List StatePatch × Nat)).foldl
          (fun acc pb => applyPatches acc pb.1 pb.2)
          (createSnapshot
            { currentState := .obj [("x", .num 1)], history := [],
              snapshots := [], eventCounter := 0, maxHistorySize := 1000,
              maxSnapshotSize := 50 } "a" 6)) "a" 8 = .ok s3 ∧
      s3.currentState =
        ({ currentState := .obj [("x", .num 1)], history := [],
           snapshots := [], eventCounter := 0, maxHistorySize := 1000,
           maxSnapshotSize := 50 } : StateStore).currentState :=
  ⟨by decide,
   C7_checkpoint_restore
     { currentState := .obj [("x", .num 1)], history := [], snapshots := [],
       eventCounter := 0, maxHistorySize := 1000, maxSnapshotSize := 50 }
     "a" [([{ op := .replace, path := "$.x", value := some (.num 2) }], 7)]
     6 8 (by decide)⟩

/-- Lemma: with `continueOnError` the sequence runs every listed
action. -/
theorem executeSequence_len_true (exec : String → ToolCtx → ExecOutcome) :
    ∀ (ids : List String) (ctx : ToolCtx),
    (executeSequence exec ids ctx true).length = ids.length := by
  intro ids
  induction ids with
  | nil => intro ctx; rfl
  | cons id rest ih =>
    intro ctx
    cases hex : exec id ctx with
    | returns r => simp [executeSequence, hex, ih]
    | throws e => simp [executeSequence, hex, ih]

/-- Lemma: the sequence never produces more results than listed
actions. -/
theorem executeSequence_len_le (exec : String → ToolCtx → ExecOutcome) :
    ∀ (ids : List String) (ctx : ToolCtx) (co : Bool),
    (executeSequence exec ids ctx co).length ≤ ids.length := by
  intro ids
  induction ids with
  | nil => intro ctx co; simp [executeSequence]
  | cons id rest ih =>
    intro ctx co
    cases hex : exec id ctx with
    | returns r =>
      simp only [executeSequence, hex, List.length_cons]
      exact Nat.succ_le_succ (ih _ co)
    | throws e =>
      cases co with
      | true =>
        simp only [executeSequence, hex, if_true, List.length_cons]
        exact Nat.succ_le_succ (ih _ true)
      | false => simp [executeSequence, hex]

/-- C8 counterexample: the claim that the sequence stops after the first
failed action (without `continueOnError`) is false: an action whose
executor returns a result with `success = false` without throwing does
not stop the run, so a failed result can appear before the last
position. -/
theorem C8_counterexample : ¬ claimC8Stated := by
  intro h
  have hcomp : executeSequence
      (fun id _ => if id = "a" then ExecOutcome.returns ⟨false, none, none⟩
        else ExecOutcome.returns ⟨true, none, none⟩)
      ["a", "b"] ⟨[], none⟩ false =
      [⟨false, none, none⟩, ⟨true, none, none⟩] := rfl
  have hmem : (⟨false, none, none⟩ : ToolResult) ∈
      (executeSequence
        (fun id _ => if id = "a" then ExecOutcome.returns ⟨false, none, none⟩
          else ExecOutcome.returns ⟨true, none, none⟩)
        ["a", "b"] ⟨[], none⟩ false).dropLast := by
    rw [hcomp]
    simp
  have := h _ ["a", "b"] ⟨[], none⟩ _ hmem
  simp at this

/-- C8 amended: `executeSequence` runs the listed actions one at a time
in order; a successful result with truthy data is threaded into the next
action's context (so a later action reads the earlier action's write); a
thrown error is recorded as a failed result and stops the run unless
`continueOnError` is set, in which case every remaining action still
runs; an action that returns an unsuccessful result without throwing
does not stop the sequence. -/
theorem C8_amended (exec : String → ToolCtx → ExecOutcome)
    (ids : List String) (ctx : ToolCtx) :
    (executeSequence exec ids ctx true).length = ids.length ∧
    (∀ co : Bool, (executeSequence exec ids ctx co).length ≤ ids.length) ∧
    (∀ (id : String) (rest : List String) (r : ToolResult)
      (d : List (String × JVal)) (co : Bool),
      exec id ctx = .returns r → r.success = true → r.data = some d →
      executeSequence exec (id :: rest) ctx co =
        r :: executeSequence exec rest (threadCtx ctx d) co) ∧
    (∀ (id : String) (rest : List String) (r : ToolResult) (co : Bool),
      exec id ctx = .returns r → r.success = false →
      executeSequence exec (id :: rest) ctx co =
        r :: executeSequence exec rest ctx co) ∧
    (∀ (id : String) (rest : List String) (e : Nat),
      exec id ctx = .throws e →
      executeSequence exec (id :: rest) ctx false = [errorResult e] ∧
      executeSequence exec (id :: rest) ctx true =
        errorResult e :: executeSequence exec rest ctx true) := by
  refine ⟨executeSequence_len_true exec ids ctx,
    fun co => executeSequence_len_le exec ids ctx co, ?_, ?_, ?_⟩
  · intro id rest r d co hex hs hd
    simp [executeSequence, hex, hs, hd, threadCtx]
  · intro id rest r co hex hs
    simp [executeSequence, hex, hs]
  · intro id rest e hex
    exact ⟨by simp [executeSequence, hex], by simp [executeSequence, hex]⟩

/-- Witness for C8 amended: action `"a"` succeeds writing `x = 1`,
action `"b"` follows; the run with `continueOnError` has both results
and the threading equation holds concretely. -/
theorem C8_amended_witness :
    (executeSequence
      (fun id _ => if id = "a"
        then ExecOutcome.returns ⟨true, some [("x", JVal.num 1)], none⟩
        else ExecOutcome.returns ⟨false, none, none⟩)
      ["a", "b"] ⟨[], none⟩ true).length = 2 ∧
    executeSequence
      (fun id _ => if id = "a"
        then ExecOutcome.returns ⟨true, some [("x", JVal.num 1)], none⟩
        else ExecOutcome.returns ⟨false, none, none⟩)
      ["a", "b"] ⟨[], none⟩ false =
      (⟨true, some [("x", JVal.num 1)], none⟩ : ToolResult) ::
        executeSequence
          (fun id _ => if id = "a"
            then ExecOutcome.returns ⟨true, some [("x", JVal.num 1)], none⟩
            else ExecOutcome.returns ⟨false, none, none⟩)
          ["b"] (threadCtx ⟨[], none⟩ [("x", JVal.num 1)]) false :=
  ⟨(C8_amended
      (fun id _ => if id = "a"
        then ExecOutcome.returns ⟨true, some [("x", JVal.num 1)], none⟩
        else ExecOutcome.returns ⟨false, none, none⟩)
      ["a", "b"] ⟨[], none⟩).1,
   (C8_amended
      (fun id _ => if id = "a"
        then ExecOutcome.returns ⟨true, some [("x", JVal.num 1)], none⟩
        else ExecOutcome.returns ⟨false, none, none⟩)
      ["a", "b"] ⟨[], none⟩).2.2.1 "a" ["b"] _ [("x", JVal.num 1)] false
      rfl rfl rfl⟩

/-- Lemma: running a concatenation of event lists is running them in
turn. -/
theorem dedupRun_append (l1 : List DedupEv) :
    ∀ (s : DedupState) (l2 : List DedupEv),
    dedupRun s (l1 ++ l2) = (dedupRun s l1).bind (fun s' => dedupRun s' l2) := by
  induction l1 with
  | nil => intro s l2; simp [dedupRun]
  | cons e l1 ih =>
    intro s l2
    simp only [List.cons_append, dedupRun]
    cases dedupStep s e
    · simp
    · simp [ih]

/-- Lemma: callers that check while an entry is pending all join its
waiter queue in order; none of them invokes the operation, and nothing is
delivered yet. -/
theorem dedupRun_checks (js : List Nat) :
    ∀ (s : DedupState) (owner : Nat) (ws : List Nat),
    s.pending = some (owner, ws) →
    (∀ j ∈ js, s.phase j = .idle) →
    js.Nodup →
    ∃ s', dedupRun s (js.map .check) = some s' ∧
      s'.pending = some (owner, ws ++ js) ∧
      s'.opCalls = s.opCalls ∧
      (∀ i, i ∉ js → s'.phase i = s.phase i) ∧
      (∀ i, s'.delivered i = s.delivered i) := by
  induction js with
  | nil =>
    intro s owner ws hp _ _
    exact ⟨s, rfl, by simpa using hp, rfl, fun _ _ => rfl, fun _ => rfl⟩
  | cons j js ih =>
    intro s owner ws hp hidle hnd
    have hjidle : s.phase j = .idle := hidle j (by simp)
    have hstep : dedupStep s (.check j) = some
        { s with pending := some (owner, ws ++ [j]),
                 phase := setPhase s.phase j .joined } := by
      simp [dedupStep, hjidle, hp]
    obtain ⟨s', hrun, hp', hop', hph', hdel'⟩ := ih
      { s with pending := some (owner, ws ++ [j]),
               phase := setPhase s.phase j .joined } owner (ws ++ [j]) rfl
      (by
        intro j' hj'
        have hne : j' ≠ j := by
          intro hcon
          subst hcon
          exact (List.nodup_cons.mp hnd).1 hj'
        show setPhase s.phase j .joined j' = .idle
        simp only [setPhase, if_neg hne]
        exact hidle j' (List.mem_cons_of_mem _ hj'))
      (List.nodup_cons.mp hnd).2
    refine ⟨s', ?_, ?_, hop', ?_, hdel'⟩
    · show (dedupStep s (.check j)).bind
        (fun s'' => dedupRun s'' (js.map .check)) = some s'
      rw [hstep]
      simpa using hrun
    · rw [hp']
      simp
    · intro i hi
      have hij : i ≠ j := fun hc => hi (hc ▸ List.mem_cons_self j js)
      have hijs : i ∉ js := fun hc => hi (List.mem_cons_of_mem _ hc)
      rw [hph' i hijs]
      show setPhase s.phase j .joined i = s.phase i
      simp only [setPhase, if_neg hij]

/-- C3 counterexample: two `execute` calls that both run `checkAndWait`
before either has registered (which happens when they start in the same
tick, each suspending at the `await` before `registerRequest` runs) both
invoke the operation, and can receive different results — so the claim
that overlapping in-flight calls share exactly one invocation and one
result is false. -/
theorem C3_counterexample : ¬ claimC3Stated := by
  intro h
  have hcomp : (dedupRun dedupInit
      [.check 0, .check 1, .resume 0, .resume 1,
        .settleReg 10, .settleUnreg 1 20]).map
      (fun s => (s.opCalls, s.delivered 0, s.delivered 1)) =
      some (2, some 10, some 20) := rfl
  cases hrun : dedupRun dedupInit
      [.check 0, .check 1, .resume 0, .resume 1,
        .settleReg 10, .settleUnreg 1 20] with
  | none => rw [hrun] at hcomp; exact Option.noConfusion hcomp
  | some s' =>
    rw [hrun] at hcomp
    simp only [Option.map, Option.some.injEq, Prod.mk.injEq] at hcomp
    obtain ⟨hop2, hd0, hd1⟩ := hcomp
    obtain ⟨hle, hagree⟩ := h _ s' (by decide) hrun
    have := hagree 0 1 10 20 hd0 hd1
    omega

/-- C3 amended: when every other overlapping caller runs its check after
the first caller has registered the pending entry (so each finds it and
joins as a waiter), the operation is invoked exactly once and the settled
result is fanned out identically to the registered caller and every
waiter. -/
theorem C3_amended (i0 : Nat) (joiners : List Nat) (v : Nat)
    (hnd : (i0 :: joiners).Nodup) :
    ∃ s', dedupRun dedupInit
        ([.check i0, .resume i0] ++ joiners.map .check ++ [.settleReg v]) =
          some s' ∧
      s'.opCalls = 1 ∧
      (∀ j, j ∈ i0 :: joiners → s'.delivered j = some v) := by
  have h1 : dedupStep dedupInit (.check i0) = some
      { dedupInit with phase := setPhase dedupInit.phase i0 .checkedNone } := by
    simp [dedupStep, dedupInit]
  have h2 : dedupStep
      { dedupInit with phase := setPhase dedupInit.phase i0 .checkedNone }
      (.resume i0) = some
      { dedupInit with
          pending := some (i0, []),
          phase := setPhase (setPhase dedupInit.phase i0 .checkedNone) i0 CallerPhase.runningRegistered,
          opCalls := 1 } := by
    simp [dedupStep, dedupInit, setPhase]
  have hi0nj : i0 ∉ joiners := (List.nodup_cons.mp hnd).1
  obtain ⟨s3, hrun3, hp3, hop3, hph3, hdel3⟩ := dedupRun_checks joiners
    { dedupInit with
        pending := some (i0, []),
        phase := setPhase (setPhase dedupInit.phase i0 .checkedNone) i0 CallerPhase.runningRegistered,
        opCalls := 1 } i0 [] rfl
    (by
      intro j hj
      have hne : j ≠ i0 := by
        intro hcon
        subst hcon
        exact hi0nj hj
      show setPhase (setPhase dedupInit.phase i0 .checkedNone) i0 CallerPhase.runningRegistered j = CallerPhase.idle
      simp [setPhase, hne, dedupInit])
    (List.nodup_cons.mp hnd).2
  have hph3i0 : s3.phase i0 = .runningRegistered := by
    rw [hph3 i0 hi0nj]
    simp [setPhase]
  have h4 : dedupStep s3 (.settleReg v) = some
      { s3 with
          pending := none,
          phase := setPhase s3.phase i0 .done,
          delivered := deliverTo s3.delivered (i0 :: joiners) v } := by
    simp [dedupStep, hp3, hph3i0]
  refine ⟨{ s3 with
      pending := none,
      phase := setPhase s3.phase i0 .done,
      delivered := deliverTo s3.delivered (i0 :: joiners) v }, ?_, ?_, ?_⟩
  · rw [dedupRun_append, dedupRun_append]
    show ((dedupRun dedupInit [.check i0, .resume i0]).bind
      (fun s => dedupRun s (joiners.map .check))).bind
      (fun s => dedupRun s [.settleReg v]) = _
    have hpre : dedupRun dedupInit [.check i0, .resume i0] = some
        { dedupInit with
            pending := some (i0, []),
            phase := setPhase (setPhase dedupInit.phase i0 .checkedNone) i0 CallerPhase.runningRegistered,
            opCalls := 1 } := by
      simp [dedupRun, h1, h2]
    rw [hpre]
    simp only [Option.some_bind]
    rw [hrun3]
    simp only [Option.some_bind]
    show (dedupStep s3 (.settleReg v)).bind (fun s => dedupRun s []) = _
    rw [h4]
    rfl
  · show s3.opCalls = 1
    rw [hop3]
  · intro j hj
    show deliverTo s3.delivered (i0 :: joiners) v j = some v
    simp [deliverTo, hj]

/-- Witness for C3 amended: caller 0 registers, callers 1 and 2 join, the
operation settles with 42 and all three receive it. -/
theorem C3_amended_witness :
    ([0, 1, 2] : List Nat).Nodup ∧
    ∃ s', dedupRun dedupInit
        ([.check 0, .resume 0] ++ ([1, 2] : List Nat).map .check ++
          [.settleReg 42]) = some s' ∧
      s'.opCalls = 1 ∧
      (∀ j, j ∈ ([0, 1, 2] : List Nat) → s'.delivered j = some 42) :=
  ⟨by decide, C3_amended 0 [1, 2] 42 (by decide)⟩

end HaloTool
